import Mathlib

/-!
Verification development for the AsciiRename rename pipeline
(src/helpers.cpp, src/main.cpp).

Filesystem paths are modelled the way std::filesystem::path iterates them:
a path is the list of its components, each component the list of its
characters.  All definitions are shallow embeddings of the C++ source; the
few places where an external collaborator (the anyascii table, UTF-8
decoding) is not part of the repository are modelled from the spec and
marked as such.
-/

namespace AsciiRename

/-- A single path component, as produced by std::filesystem::path iteration
(e.g. the root component has the characters of "/"). -/
abbrev Comp := List Char

/-- A filesystem path: the ordered list of its components, exactly the
sequence an iteration over std::filesystem::path yields. -/
abbrev Path := List Comp

/-! ## TrimTrailingPathSeparator (helpers.cpp lines 24-46, non-Windows branch)

The C++ loop repeatedly evaluates s.back() and pops while the last character
is a separator.  s.back() on an empty string is undefined behaviour; the
model makes that read observable by returning `none` when the loop evaluates
back() on the empty string. -/

/-- Separator test from the source: the character is a backslash or a slash. -/
def isSepChar (c : Char) : Bool := c == '\\' || c == '/'

/-- The `while (s.back() == .. ) s.pop_back()` loop, running over the string
reversed.  Reaching the empty list means the loop evaluates s.back() on an
empty string (undefined behaviour), reported as `none`. -/
def trimLoopAux : List Char → Option (List Char)
  | [] => none
  | c :: rest => if isSepChar c then trimLoopAux rest else some (c :: rest)

/-- TrimTrailingPathSeparator (non-Windows branch).  The outer condition
`s.length() > 1 && (s.back() == sep)` short-circuits, so the first back()
read is guarded; the loop itself re-reads back() each iteration with no
emptiness guard. -/
def TrimTrailingPathSeparator (s : List Char) : Option (List Char) :=
  if s.length > 1 && isSepChar (s.getLastD ' ') then
    (trimLoopAux s.reverse).map List.reverse
  else
    some s

/-! ## SanitizeForShell (helpers.cpp lines 225-245) -/

/-- The hazardous character set, character for character the contents of the
C++ string literal `";$`|&><.."` from the source (code 96 is the backtick,
code 39 the single quote). -/
def dangerousChars : List Char :=
  [';', '$', Char.ofNat 96, '|', '&', '>', '<', Char.ofNat 39, '"', '\\',
   '*', '?', '[', ']', '(', ')', '!', '~', '#', '\n', '\r']

/-- Per-character behaviour of the sanitizer loop: a hazardous character is
replaced by an underscore, every other character passes through. -/
def sanitizeChar (c : Char) : Char :=
  if c ∈ dangerousChars then '_' else c

/-- SanitizeForShell: the loop appends the (possibly replaced) character for
each input character in order. -/
def SanitizeForShell (s : List Char) : List Char := s.map sanitizeChar

/-! ## Transliteration buffer (helpers.cpp lines 69-110)

`anyascii_string` decodes the UTF-8 input and, for each accepted codepoint,
memcpys the ASCII fragment of the codepoint into the output buffer, finishing
with a NUL byte; there is no bound check.  `TryGetAscii` allocates the
buffer as `utf8Input.length() * 4 + 1` bytes.  The anyascii lookup table is
an external library, so it is a parameter here; the input is modelled as the
decoded codepoint sequence together with the UTF-8 byte length of each
codepoint. -/

/-- Modelled from the spec: the UTF-8 encoded byte length of a codepoint
("Input is a decoded sequence of Unicode codepoints from the given UTF-8
bytes"). -/
def utf8Len (cp : Nat) : Nat :=
  if cp < 0x80 then 1 else if cp < 0x800 then 2 else if cp < 0x10000 then 3 else 4

/-- The characters `anyascii_string` memcpys into the output buffer: the
concatenation of the per-codepoint fragments, in input order. -/
def anyasciiOut (table : Nat → List Char) (cps : List Nat) : List Char :=
  (cps.map table).flatten

/-- Total number of bytes `anyascii_string` writes: every fragment byte plus
the final NUL terminator (line 90 of the source). -/
def bytesWritten (table : Nat → List Char) (cps : List Nat) : Nat :=
  (anyasciiOut table cps).length + 1

/-- The buffer `TryGetAscii` allocates: `utf8Input.length() * 4 + 1` bytes,
where length() counts UTF-8 bytes (line 98 of the source). -/
def bufferSize (cps : List Nat) : Nat :=
  4 * (cps.map utf8Len).sum + 1

/-- The unchecked write in `anyascii_string` runs past the end of the buffer
`TryGetAscii` allocated exactly when more bytes are written than were
allocated. -/
def tryGetAsciiOverflows (table : Nat → List Char) (cps : List Nat) : Bool :=
  bufferSize cps < bytesWritten table cps

/-- Modelled from the spec: one concrete anyascii table entry witnessing
"pathological inputs, e.g. certain symbol codepoints, can expand further"
(section 4.4) — the Arabic ligature codepoint U+FDFA, three UTF-8 bytes,
whose ASCII fragment is a 27-character phrase. -/
def specAnyAscii : Nat → List Char := fun cp =>
  if cp = 0xFDFA then "sallallahou alayhe wasallam".data else []

/-! ## GetRenameableComponents (helpers.cpp lines 247-291)

The function iterates the components of its path argument, maintains the
cumulative path `current`, appends every component to it, and pushes the
cumulative path onto the result except for root markers, relative markers
and two-byte drive-letter-style components; the result is reversed at the
end so the deepest cumulative path comes first. -/

/-- The skip test of the source.  `compStr.length() == 2 && compStr[1] == ':'`
counts bytes: a UTF-8 string of byte length 2 with second byte a colon is
exactly a pair of characters whose first is a one-byte (ASCII) character
and whose second is the colon. -/
def skipComponent (comp : Comp) : Bool :=
  comp == ['/'] || comp == ['\\'] || comp == ['.'] || comp == ['.', '.'] ||
  (match comp with
   | [c, d] => c.toNat < 128 && d == ':'
   | _ => false)

/-- The component walk of GetRenameableComponents before the final reverse:
`current` accumulates every component, retained cumulative paths are pushed
in left-to-right order. -/
def grcAux (current : Path) : List Comp → List Path
  | [] => []
  | comp :: rest =>
    if skipComponent comp then grcAux (current ++ [comp]) rest
    else (current ++ [comp]) :: grcAux (current ++ [comp]) rest

/-- GetRenameableComponents: walk the components, then reverse for
bottom-up order (deepest paths first). -/
def GetRenameableComponents (comps : List Comp) : List Path :=
  (grcAux [] comps).reverse

/-- Following the words of claim C6 and spec section 4.1: the components the
spec excludes are the root separator, the relative markers, or a
two-character drive-letter component such as C: (a letter followed by a
colon). -/
def claimExcludedComponent (comp : Comp) : Bool :=
  comp == ['/'] || comp == ['\\'] || comp == ['.'] || comp == ['.', '.'] ||
  (match comp with
   | [c, d] => c.isAlpha && d == ':'
   | _ => false)

/-! ## PathTracker (main.cpp lines 349-395) -/

/-- The prefix loop of PathTracker::resolve (lines 361-374): component
iterators over `result` and `from` advance together while the components
agree; the match succeeds when `from` is exhausted. -/
def startsWith : Path → Path → Bool
  | _, [] => true
  | [], _ :: _ => false
  | c :: cs, f :: fs => if c = f then startsWith cs fs else false

/-- One iteration of the resolve loop for a single recorded mapping: when
`result` starts with `from`, the prefix is replaced by `to` and the
remaining suffix components are appended unchanged (lines 376-386). -/
def resolveStep (p : Path) (m : Path × Path) : Path :=
  if startsWith p m.1 then m.2 ++ p.drop m.1.length else p

/-- PathTracker::resolve: apply every recorded mapping, in insertion order,
to the path. -/
def resolve (renames : List (Path × Path)) (p : Path) : Path :=
  renames.foldl resolveStep p

/-! ## RenameOp and scheduling (main.cpp lines 397-413 and 534-539) -/

/-- A scheduled rename operation: the source path and its depth (an int in
the source, deeper paths get larger depth). -/
structure RenameOp where
  sourcePath : Path
  depth : Int
deriving DecidableEq, Repr

/-- What `std::sort(allOps.begin(), allOps.end())` guarantees about its
output, with `RenameOp::operator<` comparing `depth > other.depth`: the
output is a permutation of the input and no element compares less than an
earlier one, i.e. depths are non-increasing.  std::sort promises nothing
else (in particular no stability). -/
def stdSortResult (input out : List RenameOp) : Prop :=
  input.Perm out ∧ out.Pairwise (fun a b => b.depth ≤ a.depth)

/-- The scan of `std::unique` after its first element: drop each element
whose sourcePath equals that of the last kept element, keep the rest. -/
def dedupAux (last : RenameOp) : List RenameOp → List RenameOp
  | [] => []
  | b :: rest =>
    if last.sourcePath = b.sourcePath then dedupAux last rest
    else b :: dedupAux b rest

/-- `std::unique(allOps.begin(), allOps.end())` with `RenameOp::operator==`
comparing sourcePath only: of every run of consecutive elements with equal
sourcePath, only the first is kept. -/
def dedupAdjacent : List RenameOp → List RenameOp
  | [] => []
  | a :: rest => a :: dedupAux a rest

/-! ## RenameExecutor (main.cpp lines 546-669)

The execution loop is modelled over an abstract filesystem: the list of
existing paths, plus two oracles for the platform calls the loop makes —
whether std::filesystem::rename throws for a given pair, and whether
std::filesystem::equivalent holds for a given pair.  The transliteration
table reaches the loop through TryGetAscii, modelled as an abstract
function from a filename to an optional ASCII filename (`none` models
TryGetAscii returning false). -/

/-- The terminal state an operation reaches in one loop iteration. -/
inductive OpState where
  | noExist
  | translitError
  | noChange
  | collision
  | wouldRename
  | fsError
  | applied
deriving DecidableEq, Repr

/-- The abstract filesystem the loop interacts with. -/
structure FileSystem where
  paths : List Path
  renameFails : Path → Path → Bool
  equivalentTo : Path → Path → Bool

/-- std::filesystem::exists in the model. -/
def pathExists (fs : FileSystem) (p : Path) : Bool :=
  fs.paths.contains p

/-- std::filesystem::rename in the model: the renamed entry and everything
under it moves from the old prefix to the new one. -/
def applyRename (cur new : Path) (fs : FileSystem) : FileSystem :=
  { fs with paths := fs.paths.map (fun p => resolveStep p (cur, new)) }

/-- path::filename() of an operation path: its last component (operation
paths always end in a retained, regular component). -/
def filenameOf (p : Path) : Comp := p.getLastD []

/-- Lines 581-602 of the source: transliterate the filename of the current
path (TryGetAscii), sanitize it, and build the candidate new full path
`parent_path() / asciiFilename`; `none` models TryGetAscii failing. -/
def candidatePath (translit : Comp → Option Comp) (current : Path) : Option Path :=
  (translit (filenameOf current)).map
    (fun ascii => current.dropLast ++ [SanitizeForShell ascii])

/-- Mutable state of the execution loop: the tracker log, the two counters,
and the filesystem. -/
structure ExecState where
  tracker : List (Path × Path)
  renames : Nat
  skipped : Nat
  fs : FileSystem

/-- One iteration of the `for (auto &op : allOps)` loop (lines 551-662):
resolve the current path, skip silently when it no longer exists, skip
counting on transliteration failure, skip silently when no rename is
needed, skip counting on a collision without overwrite if the paths are
not filesystem-equivalent, and otherwise report (no-op mode) or perform
the rename, recording it in the tracker on success. -/
def processOp (noop overwrite : Bool) (translit : Comp → Option Comp)
    (st : ExecState) (op : RenameOp) : OpState × ExecState :=
  let current := resolve st.tracker op.sourcePath
  if pathExists st.fs current then
    match candidatePath translit current with
    | none => (OpState.translitError, { st with skipped := st.skipped + 1 })
    | some newPath =>
      if current = newPath then (OpState.noChange, st)
      else if pathExists st.fs newPath && !overwrite
              && !(st.fs.equivalentTo current newPath) then
        (OpState.collision, { st with skipped := st.skipped + 1 })
      else if noop then
        (OpState.wouldRename,
         { st with renames := st.renames + 1,
                   tracker := st.tracker ++ [(current, newPath)] })
      else if st.fs.renameFails current newPath then
        (OpState.fsError, { st with skipped := st.skipped + 1 })
      else
        (OpState.applied,
         { st with renames := st.renames + 1,
                   tracker := st.tracker ++ [(current, newPath)],
                   fs := applyRename current newPath st.fs })
  else (OpState.noExist, st)

/-- The whole execution loop: process the operations in order, collecting
the terminal state of each. -/
def runOps (noop overwrite : Bool) (translit : Comp → Option Comp) :
    ExecState → List RenameOp → List OpState × ExecState
  | st, [] => ([], st)
  | st, op :: rest =>
    let r := processOp noop overwrite translit st op
    let rest' := runOps noop overwrite translit r.2 rest
    (r.1 :: rest'.1, rest'.2)

/-- The aggregate result main_utf8 returns to its caller: the skipped
count (line 669). -/
def mainResult (noop overwrite : Bool) (translit : Comp → Option Comp)
    (st : ExecState) (ops : List RenameOp) : Nat :=
  (runOps noop overwrite translit st ops).2.skipped

/-- Renamed-counter increment each terminal state performs in the source. -/
def renamesInc : OpState → Nat
  | OpState.wouldRename => 1
  | OpState.applied => 1
  | _ => 0

/-- Skipped-counter increment each terminal state performs in the source:
no-exist and no-change leave both counters untouched. -/
def skippedInc : OpState → Nat
  | OpState.translitError => 1
  | OpState.collision => 1
  | OpState.fsError => 1
  | _ => 0

/-- The record the loop reports for a terminal state: a real rename and a
simulated one print the same success report ("Renaming" / "Would have
renamed"), the skip causes are each their own report. -/
inductive Report where
  | renamed
  | skipNoExist
  | skipTranslit
  | skipNoChange
  | skipCollision
  | skipFsError
deriving DecidableEq, Repr

/-- Map a terminal state to its report. -/
def reportOf : OpState → Report
  | OpState.noExist => Report.skipNoExist
  | OpState.translitError => Report.skipTranslit
  | OpState.noChange => Report.skipNoChange
  | OpState.collision => Report.skipCollision
  | OpState.fsError => Report.skipFsError
  | OpState.wouldRename => Report.renamed
  | OpState.applied => Report.renamed

/-! ## Theorems -/

/-- C10: the claim that TrimTrailingPathSeparator only reads s.back() while
the string is non-empty fails.  On input "//" the loop pops both separators
and then evaluates s.back() on the empty string (`none` in the model, an
out-of-bounds read in the source); "a//" and a bare "/" behave normally. -/
theorem C10_trim_reads_empty_back :
    TrimTrailingPathSeparator ['/', '/'] = none ∧
    TrimTrailingPathSeparator ['a', '/', '/'] = some ['a'] ∧
    TrimTrailingPathSeparator ['/'] = some ['/'] :=
  ⟨rfl, rfl, rfl⟩

/-- C1: TryGetAscii allocates an unchecked fixed buffer of
`4 * byte-length + 1` bytes, and a single pathological symbol codepoint
(U+FDFA, three UTF-8 bytes, 27-character ASCII fragment) makes
anyascii_string write 28 bytes into the 13-byte buffer: the write runs past
the allocated buffer. -/
theorem C1_unchecked_fixed_buffer :
    bufferSize [0xFDFA] = 13 ∧
    bytesWritten specAnyAscii [0xFDFA] = 28 ∧
    tryGetAsciiOverflows specAnyAscii [0xFDFA] = true := by
  refine ⟨by decide, by decide, by decide⟩

/-- C7: SanitizeForShell maps every character of the hazardous set to the
underscore placeholder, is the identity outside the set, preserves order
and length (position i of the output is the sanitized character at
position i of the input), and is idempotent. -/
theorem C7_sanitize_total :
    (∀ c, c ∈ dangerousChars → sanitizeChar c = '_') ∧
    (∀ c, c ∉ dangerousChars → sanitizeChar c = c) ∧
    (∀ (s : List Char) (i : Nat), (SanitizeForShell s)[i]? = (s[i]?).map sanitizeChar) ∧
    (∀ s, (SanitizeForShell s).length = s.length) ∧
    (∀ s, SanitizeForShell (SanitizeForShell s) = SanitizeForShell s) := by
  have point : ∀ c, sanitizeChar (sanitizeChar c) = sanitizeChar c := by
    intro c
    by_cases hc : c ∈ dangerousChars <;> simp [sanitizeChar, hc]
  refine ⟨?_, ?_, ?_, ?_, ?_⟩
  · intro c hc; simp [sanitizeChar, hc]
  · intro c hc; simp [sanitizeChar, hc]
  · intro s (i : Nat); simp [SanitizeForShell]
  · intro s; simp [SanitizeForShell]
  · intro s
    simp only [SanitizeForShell, List.map_map, Function.comp_def, point]

/-- Witness for C7 at concrete characters: the semicolon is hazardous and
maps to the underscore, the letter a passes through. -/
theorem C7_sanitize_total_witness :
    sanitizeChar ';' = '_' ∧ sanitizeChar 'a' = 'a' :=
  ⟨C7_sanitize_total.1 ';' (by decide), C7_sanitize_total.2.1 'a' (by decide)⟩

/-- The prefix loop accepts the empty recorded prefix at once. -/
theorem startsWith_nil (p : Path) : startsWith p [] = true := by
  cases p <;> rfl

/-- The resolve prefix loop succeeds on any componentwise extension. -/
theorem startsWith_append (fp suffix : Path) : startsWith (fp ++ suffix) fp = true := by
  induction fp with
  | nil => exact startsWith_nil suffix
  | cons c cs ih => simp [startsWith, ih]

/-- The resolve prefix loop decides exactly componentwise list prefix. -/
theorem startsWith_iff (p fp : Path) : startsWith p fp = true ↔ fp <+: p := by
  induction fp generalizing p with
  | nil =>
    simp [startsWith_nil, List.nil_prefix]
  | cons f fs ih =>
    cases p with
    | nil =>
      simp only [startsWith]
      constructor
      · intro h; exact absurd h (by simp)
      · rintro ⟨t, ht⟩; exact absurd ht (by simp)
    | cons c cs =>
      by_cases hcf : c = f
      · subst hcf
        simp [startsWith, ih, List.cons_prefix_cons]
      · simp only [startsWith, if_neg hcf]
        constructor
        · intro h; exact absurd h (by simp)
        · rintro ⟨t, ht⟩
          injection ht with h1 h2
          exact absurd h1.symm hcf

/-- C2: PathTracker.resolve applies the recorded mappings in insertion
order; one mapping rewrites the current result exactly when its `from` is a
componentwise prefix of it, replacing the prefix and keeping the suffix
components; componentwise matching means a recorded /data/x never rewrites
/data/xx; and with record(parent, parent') as the only applicable mapping,
parent/child resolves to parent'/child. -/
theorem C2_pathTracker_resolve :
    (∀ m ms p, resolve (m :: ms) p = resolve ms (resolveStep p m)) ∧
    (∀ fp tp suffix, resolveStep (fp ++ suffix) (fp, tp) = tp ++ suffix) ∧
    (∀ p fp tp, ¬ (fp <+: p) → resolveStep p (fp, tp) = p) ∧
    (resolve [([['/'], ['d','a','t','a'], ['x']], [['/'], ['d','a','t','a'], ['y']])]
        [['/'], ['d','a','t','a'], ['x','x']]
      = [['/'], ['d','a','t','a'], ['x','x']]) ∧
    (∀ parent parent' child,
      resolve [(parent, parent')] (parent ++ [child]) = parent' ++ [child]) := by
  refine ⟨fun m ms p => rfl, ?_, ?_, by decide, ?_⟩
  · intro fp tp suffix
    simp [resolveStep, startsWith_append, List.drop_left]
  · intro p fp tp h
    have hb : startsWith p fp = false := by
      cases hsw : startsWith p fp
      · rfl
      · exact absurd ((startsWith_iff p fp).mp hsw) h
    simp [resolveStep, hb]
  · intro parent parent' child
    show resolveStep (parent ++ [child]) (parent, parent') = parent' ++ [child]
    simp [resolveStep, startsWith_append, List.drop_left]

/-- Witness for C2 at a concrete non-matching mapping: a recorded b does
not rewrite the unrelated path a. -/
theorem C2_pathTracker_resolve_witness :
    resolveStep [['a']] ([['b']], [['c']]) = [['a']] :=
  C2_pathTracker_resolve.2.2.1 [['a']] [['b']] [['c']] (by decide)

/-- On a run of components that are all retained, the component walk
produces exactly the cumulative extensions of `cur`, in left-to-right
order. -/
theorem grcAux_all_retained (names : List Comp) :
    ∀ cur, (∀ n ∈ names, skipComponent n = false) →
      grcAux cur names
        = (List.range names.length).map (fun i => cur ++ names.take (i + 1)) := by
  induction names with
  | nil => intro cur _; rfl
  | cons n rest ih =>
    intro cur h
    have hn : skipComponent n = false := h n (List.mem_cons_self n rest)
    have hrest : ∀ m ∈ rest, skipComponent m = false :=
      fun m hm => h m (List.mem_cons_of_mem n hm)
    rw [grcAux, if_neg (by simp [hn]), ih (cur ++ [n]) hrest]
    simp [List.range_succ_eq_map, List.map_map, Function.comp_def,
      List.take_succ_cons, List.append_assoc]

/-- Membership in the component walk: exactly the cumulative paths ending
at a position whose component the source does not skip. -/
theorem grcAux_mem (names : List Comp) :
    ∀ cur q, q ∈ grcAux cur names ↔
      ∃ i, i < names.length ∧ skipComponent (names.getD i []) = false ∧
        q = cur ++ names.take (i + 1) := by
  induction names with
  | nil => intro cur q; simp [grcAux]
  | cons n rest ih =>
    intro cur q
    by_cases hs : skipComponent n = true
    · rw [grcAux, if_pos hs, ih (cur ++ [n]) q]
      constructor
      · rintro ⟨i, hi, hsk, hq⟩
        exact ⟨i + 1, by simp only [List.length_cons] at *; omega, by simpa using hsk,
          by simp [hq, List.take_succ_cons, List.append_assoc]⟩
      · rintro ⟨i, hi, hsk, hq⟩
        cases i with
        | zero => simp [List.getD_cons_zero, hs] at hsk
        | succ j =>
          exact ⟨j, by simp only [List.length_cons] at *; omega, by simpa using hsk,
            by simpa [List.take_succ_cons, List.append_assoc] using hq⟩
    · have hs' : skipComponent n = false := by
        cases h2 : skipComponent n
        · rfl
        · exact absurd h2 hs
      rw [grcAux, if_neg hs]
      simp only [List.mem_cons]
      rw [ih (cur ++ [n]) q]
      constructor
      · rintro (hq | ⟨i, hi, hsk, hq⟩)
        · exact ⟨0, by simp only [List.length_cons] at *; omega, by simpa using hs', by simp [hq]⟩
        · exact ⟨i + 1, by simp only [List.length_cons] at *; omega, by simpa using hsk,
            by simp [hq, List.take_succ_cons, List.append_assoc]⟩
      · rintro ⟨i, hi, hsk, hq⟩
        cases i with
        | zero => exact Or.inl (by simpa using hq)
        | succ j =>
          exact Or.inr ⟨j, by simp only [List.length_cons] at *; omega, by simpa using hsk,
            by simpa [List.take_succ_cons, List.append_assoc] using hq⟩

/-- C5: decomposition of /a/b/c yields exactly /a/b/c, /a/b, /a in that
order (deepest first, the root excluded); a bare root and a drive-only
input yield an empty result; and in general, for an absolute path all of
whose named components are retained, the result is the reverse of the
left-to-right cumulative sub-path list. -/
theorem C5_decomposition_order :
    (GetRenameableComponents [['/'], ['a'], ['b'], ['c']]
      = [[['/'], ['a'], ['b'], ['c']], [['/'], ['a'], ['b']], [['/'], ['a']]]) ∧
    GetRenameableComponents [['/']] = [] ∧
    GetRenameableComponents [['C', ':']] = [] ∧
    (∀ names : List Comp, (∀ n ∈ names, skipComponent n = false) →
      GetRenameableComponents (['/'] :: names)
        = ((List.range names.length).map
            (fun i => ['/'] :: names.take (i + 1))).reverse) := by
  refine ⟨by decide, by decide, by decide, ?_⟩
  intro names h
  unfold GetRenameableComponents
  have hroot : grcAux [] (['/'] :: names) = grcAux [['/']] names := by
    rw [grcAux, if_pos (by decide)]
    rfl
  rw [hroot, grcAux_all_retained names [['/']] h]
  simp

/-- Witness for C5 at the concrete component run a, b, c. -/
theorem C5_decomposition_order_witness :
    GetRenameableComponents (['/'] :: [['a'], ['b'], ['c']])
      = ((List.range 3).map
          (fun i => ['/'] :: [['a'], ['b'], ['c']].take (i + 1))).reverse :=
  C5_decomposition_order.2.2.2 [['a'], ['b'], ['c']] (by decide)

/-- C6 counterexample: the component "1:" is not in the excluded set
stated by the claim (no drive letter), yet the source skips it — decomposing the
single-component path "1:" retains nothing. -/
theorem C6_excluded_components_counterexample :
    GetRenameableComponents [['1', ':']] = [] ∧
    claimExcludedComponent ['1', ':'] = false ∧
    skipComponent ['1', ':'] = true :=
  ⟨by decide, by decide, by decide⟩

/-- C6 amended: a cumulative sub-path is retained exactly for the positions
whose component is not skipped, where the skipped components are the root
separators, the relative markers, and any two-character component whose
second character is a colon (the first character need not be a drive
letter), at any position in the path. -/
theorem C6_excluded_components_amended :
    ∀ (comps : List Comp) (q : Path),
      q ∈ GetRenameableComponents comps ↔
        ∃ i, i < comps.length ∧ skipComponent (comps.getD i []) = false ∧
          q = comps.take (i + 1) := by
  intro comps q
  unfold GetRenameableComponents
  rw [List.mem_reverse, grcAux_mem comps [] q]
  simp

/-- The operations collected, in insertion order, from the three argument
paths p/f1, p/o, p/f1 (the same path listed twice): each argument
contributes its cumulative sub-paths deepest first with depth = number of
retained components. -/
def c3Input : List RenameOp :=
  [⟨[['p'], ['f', '1']], 2⟩, ⟨[['p']], 1⟩,
   ⟨[['p'], ['o']], 2⟩, ⟨[['p']], 1⟩,
   ⟨[['p'], ['f', '1']], 2⟩, ⟨[['p']], 1⟩]

/-- A permutation of c3Input that is sorted for `RenameOp::operator<`
(depths non-increasing): the order that preserves insertion order among
equal depths, certainly among the admissible outputs of std::sort. -/
def c3Sorted : List RenameOp :=
  [⟨[['p'], ['f', '1']], 2⟩, ⟨[['p'], ['o']], 2⟩, ⟨[['p'], ['f', '1']], 2⟩,
   ⟨[['p']], 1⟩, ⟨[['p']], 1⟩, ⟨[['p']], 1⟩]

/-- C3 fails on the code: after a depth-descending sort, the two copies of
p/f1 need not be adjacent, and std::unique removes only adjacent
duplicates, so the duplicated sourcePath survives deduplication. -/
theorem C3_dedup_misses_nonadjacent :
    stdSortResult c3Input c3Sorted ∧
    dedupAdjacent c3Sorted
      = [⟨[['p'], ['f', '1']], 2⟩, ⟨[['p'], ['o']], 2⟩,
         ⟨[['p'], ['f', '1']], 2⟩, ⟨[['p']], 1⟩] ∧
    ¬ List.Pairwise (fun a b => a.sourcePath ≠ b.sourcePath)
        (dedupAdjacent c3Sorted) := by
  refine ⟨⟨by decide, by decide⟩, by decide, by decide⟩

/-- Two operations of equal depth in insertion order. -/
def c4Input : List RenameOp := [⟨[['a']], 1⟩, ⟨[['b']], 1⟩]

/-- The swapped order: also a valid result of the depth-only sort. -/
def c4Swapped : List RenameOp := [⟨[['b']], 1⟩, ⟨[['a']], 1⟩]

/-- C4 fails on the code: std::sort only guarantees a permutation that is
sorted for the comparator; the swapped output is admissible for two
equal-depth operations, and it does not preserve their relative insertion
order (the equal-depth subsequences differ), so the code does not provide
the stable sort the spec requires. -/
theorem C4_sort_not_stable :
    stdSortResult c4Input c4Swapped ∧
    c4Swapped.filter (fun o => o.depth == 1)
      ≠ c4Input.filter (fun o => o.depth == 1) := by
  refine ⟨⟨by decide, by decide⟩, by decide⟩

/-- Each loop iteration changes the renamed counter by exactly the
increment its terminal state performs, and likewise for the skipped
counter. -/
theorem processOp_counters (noop overwrite : Bool) (translit : Comp → Option Comp)
    (st : ExecState) (op : RenameOp) :
    (processOp noop overwrite translit st op).2.renames
        = st.renames + renamesInc (processOp noop overwrite translit st op).1 ∧
    (processOp noop overwrite translit st op).2.skipped
        = st.skipped + skippedInc (processOp noop overwrite translit st op).1 := by
  simp only [processOp]
  repeat' split
  all_goals simp [renamesInc, skippedInc]

/-- Counter accounting over the whole loop: the final counters are the
initial ones plus the per-state increments of the reported sequence. -/
theorem runOps_counters (noop overwrite : Bool) (translit : Comp → Option Comp) :
    ∀ (ops : List RenameOp) (st : ExecState),
      (runOps noop overwrite translit st ops).2.renames
        = st.renames + ((runOps noop overwrite translit st ops).1.map renamesInc).sum ∧
      (runOps noop overwrite translit st ops).2.skipped
        = st.skipped + ((runOps noop overwrite translit st ops).1.map skippedInc).sum := by
  intro ops
  induction ops with
  | nil => intro st; simp [runOps]
  | cons op rest ih =>
    intro st
    simp only [runOps, List.map_cons, List.sum_cons]
    have hr := processOp_counters noop overwrite translit st op
    have hi := ih (processOp noop overwrite translit st op).2
    exact ⟨by omega, by omega⟩

/-- C8 amended: every terminal state adjusts the two counters by its fixed
increments — Applied and WouldRename add one rename, TranslitError,
Collision and FsError add one skip, NoExist and NoChange leave both
counters untouched — and the aggregate result main_utf8 returns equals the
initial skipped count plus the counted skips of the reported sequence. -/
theorem C8_counters_amended :
    (∀ (noop overwrite : Bool) (translit : Comp → Option Comp)
        (st : ExecState) (op : RenameOp),
      (processOp noop overwrite translit st op).2.renames
          = st.renames + renamesInc (processOp noop overwrite translit st op).1 ∧
      (processOp noop overwrite translit st op).2.skipped
          = st.skipped + skippedInc (processOp noop overwrite translit st op).1) ∧
    (∀ (noop overwrite : Bool) (translit : Comp → Option Comp)
        (st : ExecState) (ops : List RenameOp),
      mainResult noop overwrite translit st ops
        = st.skipped + ((runOps noop overwrite translit st ops).1.map skippedInc).sum) :=
  ⟨fun noop overwrite translit st op => processOp_counters noop overwrite translit st op,
   fun noop overwrite translit st ops => (runOps_counters noop overwrite translit ops st).2⟩

/-- Empty filesystem and zeroed counters, no rename failures, equivalence
of equal paths only. -/
def c8State : ExecState :=
  { tracker := [], renames := 0, skipped := 0,
    fs := { paths := [], renameFails := fun _ _ => false,
            equivalentTo := fun p q => p == q } }

/-- The same state with the single existing path x. -/
def c8StateX : ExecState :=
  { tracker := [], renames := 0, skipped := 0,
    fs := { paths := [[['x']]], renameFails := fun _ _ => false,
            equivalentTo := fun p q => p == q } }

/-- C8 counterexample: an operation reaching the Skipped(no-exist) terminal
state increments neither counter, and one reaching Skipped(no-change)
increments neither counter, contradicting the claim that every terminal
state increments exactly one of the two. -/
theorem C8_counters_counterexample :
    (processOp false false (fun c => some c) c8State ⟨[['x']], 1⟩).1
        = OpState.noExist ∧
    (processOp false false (fun c => some c) c8State ⟨[['x']], 1⟩).2.renames = 0 ∧
    (processOp false false (fun c => some c) c8State ⟨[['x']], 1⟩).2.skipped = 0 ∧
    (processOp false false (fun c => some c) c8StateX ⟨[['x']], 1⟩).1
        = OpState.noChange ∧
    (processOp false false (fun c => some c) c8StateX ⟨[['x']], 1⟩).2.renames = 0 ∧
    (processOp false false (fun c => some c) c8StateX ⟨[['x']], 1⟩).2.skipped = 0 :=
  ⟨rfl, rfl, rfl, rfl, rfl, rfl⟩

/-- In no-op mode a single iteration never touches the filesystem. -/
theorem processOp_noop_fs (overwrite : Bool) (translit : Comp → Option Comp)
    (st : ExecState) (op : RenameOp) :
    (processOp true overwrite translit st op).2.fs = st.fs := by
  simp only [processOp]
  repeat' split
  all_goals simp_all

/-- In no-op mode the whole loop never touches the filesystem. -/
theorem runOps_noop_fs (overwrite : Bool) (translit : Comp → Option Comp) :
    ∀ (ops : List RenameOp) (st : ExecState),
      (runOps true overwrite translit st ops).2.fs = st.fs := by
  intro ops
  induction ops with
  | nil => intro st; simp [runOps]
  | cons op rest ih =>
    intro st
    simp only [runOps]
    rw [ih (processOp true overwrite translit st op).2,
      processOp_noop_fs overwrite translit st op]

/-- In no-op mode, an iteration that reports a (simulated) successful
rename still appends the (current, candidate) mapping to the tracker. -/
theorem processOp_noop_record (overwrite : Bool) (translit : Comp → Option Comp)
    (st : ExecState) (op : RenameOp)
    (h : (processOp true overwrite translit st op).1 = OpState.wouldRename) :
    (processOp true overwrite translit st op).2.tracker
      = st.tracker ++ [(resolve st.tracker op.sourcePath,
          (candidatePath translit (resolve st.tracker op.sourcePath)).getD [])] := by
  rcases hE : processOp true overwrite translit st op with ⟨s, st'⟩
  rw [hE] at h
  simp only at h
  subst h
  simp only [processOp] at hE
  split at hE
  · split at hE
    · exact absurd (congrArg Prod.fst hE) (by simp)
    · rename_i newPath heq
      split at hE
      · exact absurd (congrArg Prod.fst hE) (by simp)
      · split at hE
        · exact absurd (congrArg Prod.fst hE) (by simp)
        · simp only [if_true] at hE
          have h2 := congrArg Prod.snd hE
          simp only at h2
          rw [← h2]
          simp [heq]
  · exact absurd (congrArg Prod.fst hE) (by simp)

/-- C9 amended: a simulate (no-op) run leaves the filesystem unmodified,
and a simulated successful rename still records (current, candidate) in the
tracker; the reported sequence, however, may diverge from that of a real run
(see the counterexample). -/
theorem C9_simulate_amended :
    (∀ (overwrite : Bool) (translit : Comp → Option Comp)
        (ops : List RenameOp) (st : ExecState),
      (runOps true overwrite translit st ops).2.fs = st.fs) ∧
    (∀ (overwrite : Bool) (translit : Comp → Option Comp)
        (st : ExecState) (op : RenameOp),
      (processOp true overwrite translit st op).1 = OpState.wouldRename →
      (processOp true overwrite translit st op).2.tracker
        = st.tracker ++ [(resolve st.tracker op.sourcePath,
            (candidatePath translit (resolve st.tracker op.sourcePath)).getD [])]) :=
  ⟨fun overwrite translit ops st => runOps_noop_fs overwrite translit ops st,
   fun overwrite translit st op h => processOp_noop_record overwrite translit st op h⟩

/-- Transliteration table for the counterexample: both of the distinct
filenames with an accented a transliterate to the plain a.txt. -/
def c9Translit : Comp → Option Comp := fun c =>
  if c = ['ä', '.', 't', 'x', 't'] then some ['a', '.', 't', 'x', 't']
  else if c = ['á', '.', 't', 'x', 't'] then some ['a', '.', 't', 'x', 't']
  else some c

/-- Initial state: the two accented files exist, renames never fail, paths
are equivalent only when equal. -/
def c9State : ExecState :=
  { tracker := [], renames := 0, skipped := 0,
    fs := { paths := [[['ä', '.', 't', 'x', 't']], [['á', '.', 't', 'x', 't']]],
            renameFails := fun _ _ => false,
            equivalentTo := fun p q => p == q } }

/-- The two scheduled operations, one per file. -/
def c9Ops : List RenameOp :=
  [⟨[['ä', '.', 't', 'x', 't']], 1⟩, ⟨[['á', '.', 't', 'x', 't']], 1⟩]

/-- C9 counterexample: from the same initial filesystem, the real run
renames the first file and then skips the second as a collision (the first
rename created a.txt), while the simulate run reports two successful
renames — the reported sequences differ and the tracker logs differ, so
simulate mode is not observationally identical to a real run. -/
theorem C9_simulate_counterexample :
    (runOps false false c9Translit c9State c9Ops).1
        = [OpState.applied, OpState.collision] ∧
    (runOps true false c9Translit c9State c9Ops).1
        = [OpState.wouldRename, OpState.wouldRename] ∧
    ((runOps true false c9Translit c9State c9Ops).1.map reportOf
        ≠ (runOps false false c9Translit c9State c9Ops).1.map reportOf) ∧
    (runOps true false c9Translit c9State c9Ops).2.tracker
        ≠ (runOps false false c9Translit c9State c9Ops).2.tracker ∧
    (runOps true false c9Translit c9State c9Ops).2.fs.paths = c9State.fs.paths :=
  ⟨by decide, by decide, by decide, by decide, by decide⟩

/-- Witness for C9 amended at the concrete counterexample run: the
simulate run leaves the filesystem untouched, and its first (simulated)
rename records the mapping. -/
theorem C9_simulate_amended_witness :
    (runOps true false c9Translit c9State c9Ops).2.fs = c9State.fs ∧
    (processOp true false c9Translit c9State ⟨[['ä', '.', 't', 'x', 't']], 1⟩).2.tracker
      = c9State.tracker
        ++ [(resolve c9State.tracker [['ä', '.', 't', 'x', 't']],
            (candidatePath c9Translit
              (resolve c9State.tracker [['ä', '.', 't', 'x', 't']])).getD [])] :=
  ⟨C9_simulate_amended.1 false c9Translit c9Ops c9State,
   C9_simulate_amended.2 false c9Translit c9State ⟨[['ä', '.', 't', 'x', 't']], 1⟩
     (by decide)⟩

end AsciiRename
